import Mathlib

/-!
Verification of the game-show backend session state machine
(`src/server.js`).  The JavaScript `Map` objects (`teams`, `players`,
`games`, `connections`) are embedded as association lists that preserve
insertion order; `Map.get` / `Map.set` / `Map.delete` become `mapGet` /
`mapSet` / `mapDelete`.  JavaScript sparse arrays of scores become
`List (Option Int)` (a hole is `none`), and `arr.reduce((sum, s) => sum + (s || 0), 0)`
becomes `sumScores`.  Transient WebSocket connection references are
modelled as abstract numeric channel identifiers.
-/

/-- JavaScript `Map.prototype.get`, on an insertion-ordered association list. -/
def mapGet {κ α : Type} [DecidableEq κ] : List (κ × α) → κ → Option α
  | [], _ => none
  | p :: m, k => if p.1 = k then some p.2 else mapGet m k

/-- JavaScript `Map.prototype.set`: replace the entry in place when the key
is present, append otherwise. -/
def mapSet {κ α : Type} [DecidableEq κ] : List (κ × α) → κ → α → List (κ × α)
  | [], k, v => [(k, v)]
  | p :: m, k, v => if p.1 = k then (k, v) :: m else p :: mapSet m k v

/-- JavaScript `Map.prototype.delete`. -/
def mapDelete {κ α : Type} [DecidableEq κ] (m : List (κ × α)) (k : κ) : List (κ × α) :=
  m.filter (fun p => p.1 ≠ k)

theorem mapGet_mapSet_self {κ α : Type} [DecidableEq κ] (m : List (κ × α)) (k : κ) (v : α) :
    mapGet (mapSet m k v) k = some v := by
  induction m with
  | nil => simp [mapGet, mapSet]
  | cons p m ih =>
    by_cases h : p.1 = k <;> simp [mapGet, mapSet, h, ih]

theorem mapGet_mapSet_ne {κ α : Type} [DecidableEq κ] (m : List (κ × α)) (k k' : κ) (v : α)
    (h : k' ≠ k) : mapGet (mapSet m k v) k' = mapGet m k' := by
  have hkk : ¬ k = k' := fun hh => h hh.symm
  induction m with
  | nil => simp [mapGet, mapSet, hkk]
  | cons p m ih =>
    by_cases hp : p.1 = k
    · rw [mapSet, if_pos hp, mapGet, if_neg hkk, mapGet, hp, if_neg hkk]
    · rw [mapSet, if_neg hp]
      by_cases hp' : p.1 = k'
      · rw [mapGet, if_pos hp', mapGet, if_pos hp']
      · rw [mapGet, if_neg hp', mapGet, if_neg hp', ih]

theorem mem_mapSet {κ α : Type} [DecidableEq κ] {m : List (κ × α)} {k : κ} {v : α}
    {p : κ × α} (hp : p ∈ mapSet m k v) : p = (k, v) ∨ p ∈ m := by
  induction m with
  | nil => simpa [mapSet] using hp
  | cons q m ih =>
    by_cases h : q.1 = k
    · simp only [mapSet, if_pos h, List.mem_cons] at hp
      rcases hp with hp | hp
      · exact Or.inl hp
      · exact Or.inr (List.mem_cons_of_mem _ hp)
    · simp only [mapSet, if_neg h, List.mem_cons] at hp
      rcases hp with hp | hp
      · exact Or.inr (by simp [hp])
      · rcases ih hp with h1 | h1
        · exact Or.inl h1
        · exact Or.inr (List.mem_cons_of_mem _ h1)

theorem mem_mapDelete {κ α : Type} [DecidableEq κ] {m : List (κ × α)} {k : κ}
    {p : κ × α} (hp : p ∈ mapDelete m k) : p ∈ m :=
  List.mem_of_mem_filter hp

theorem mapGet_mapDelete_ne {κ α : Type} [DecidableEq κ] (m : List (κ × α)) (k k' : κ)
    (h : k' ≠ k) : mapGet (mapDelete m k) k' = mapGet m k' := by
  have hkk : ¬ k = k' := fun hh => h hh.symm
  induction m with
  | nil => rfl
  | cons p m ih =>
    simp only [mapDelete, ne_eq, decide_not] at ih ⊢
    by_cases hp : p.1 = k
    · have hp' : ¬ p.1 = k' := by intro hh; exact h (hh ▸ hp)
      simp [List.filter_cons, hp, hp', hkk, mapGet, ih]
    · by_cases hp' : p.1 = k'
      · simp [List.filter_cons, hp, hp', hkk, h, mapGet]
      · simp [List.filter_cons, hp, hp', hkk, h, mapGet, ih]

theorem mapGet_mem {κ α : Type} [DecidableEq κ] {m : List (κ × α)} {k : κ} {v : α}
    (h : mapGet m k = some v) : (k, v) ∈ m := by
  induction m with
  | nil => simp [mapGet] at h
  | cons p m ih =>
    rw [mapGet] at h
    split at h
    · next hp =>
        injection h with hv
        have hpv : (k, v) = p := by rw [← hp, ← hv]
        rw [hpv]
        exact List.mem_cons_self p m
    · exact List.mem_cons_of_mem _ (ih h)

/-- A team member descriptor, as pushed by `GameState.addPlayer`. -/
structure Member where
  playerId : String
  name : String
  isManager : Bool
deriving DecidableEq, Repr

/-- A team record, as created by `GameState.addPlayer`. -/
structure Team where
  name : String
  members : List Member
  totalScore : Int
  roundScores : List (Option Int)
  manager : Option String
deriving DecidableEq, Repr

/-- The per-player data stored in the `players` map (the transient
`connection` reference is not part of the persisted or invariant-relevant
state and is omitted). -/
structure PlayerData where
  name : String
  teamName : String
  isManager : Bool
deriving DecidableEq, Repr

/-- An entry of the `buzzedPlayers` queue. -/
structure BuzzRecord where
  playerId : String
  playerName : String
  teamName : String
  timestamp : Nat
deriving DecidableEq, Repr

/-- The `GameState` class of `src/server.js`.  `hostConnection` is an
abstract channel identifier. -/
structure GameState where
  gameCode : String
  hostId : String
  hostConnection : Option Nat
  currentGame : Nat
  currentRound : Nat
  games : List (String × Nat)
  teams : List (String × Team)
  players : List (String × PlayerData)
  buzzedPlayers : List BuzzRecord
  scoringEnabled : Bool
  gameStarted : Bool
  gameEnded : Bool
  createdAt : Nat
deriving DecidableEq, Repr

/-- The `GameState` constructor. -/
def GameState.new (gameCode hostId : String) (now : Nat) : GameState :=
  { gameCode := gameCode
    hostId := hostId
    hostConnection := none
    currentGame := 1
    currentRound := 1
    games := []
    teams := []
    players := []
    buzzedPlayers := []
    scoringEnabled := false
    gameStarted := false
    gameEnded := false
    createdAt := now }

/-- JavaScript truthiness of `!team.manager`: `null` and the empty string
are falsy. -/
def managerFalsy : Option String → Bool
  | none => true
  | some s => s == ""

/-- The fresh team object created for an unknown team name
(src/server.js lines 63-71). -/
def freshTeam (teamName : String) : Team :=
  { name := teamName, members := [], totalScore := 0, roundScores := [], manager := none }

/-- The in-place team mutation of `GameState.addPlayer`
(src/server.js lines 75-91): push a member descriptor unless the player
is already a member, then reassign the manager when the joiner is
explicitly flagged or the team has no (truthy) manager. -/
def addPlayerTeam (playerId : String) (pd : PlayerData) (team : Team) : Team :=
  let members1 :=
    if team.members.any (fun m => m.playerId == playerId) then team.members
    else team.members ++
      [{ playerId := playerId, name := pd.name,
         isManager := pd.isManager || team.members.isEmpty }]
  if pd.isManager || managerFalsy team.manager then
    { team with manager := some playerId,
                members := members1.map
                  (fun m => { m with isManager := m.playerId == playerId }) }
  else
    { team with members := members1 }

/-- `GameState.addPlayer` (src/server.js lines 59-92). -/
def GameState.addPlayer (s : GameState) (playerId : String) (pd : PlayerData) : GameState :=
  let players := mapSet s.players playerId pd
  let teams0 :=
    if (mapGet s.teams pd.teamName).isSome then s.teams
    else mapSet s.teams pd.teamName (freshTeam pd.teamName)
  match mapGet teams0 pd.teamName with
  | none => { s with players := players, teams := teams0 }
  | some team =>
    { s with players := players,
             teams := mapSet teams0 pd.teamName (addPlayerTeam playerId pd team) }

/-- The in-place team mutation of `GameState.removePlayer` when members
remain (src/server.js lines 98-104): drop the leaver's descriptor and, if
the leaver was the manager, promote the first remaining member. -/
def removePlayerTeam (playerId : String) (team : Team) : Team :=
  let members1 := team.members.filter (fun (m : Member) => m.playerId ≠ playerId)
  if team.manager = some playerId ∧ members1 ≠ [] then
    match members1 with
    | [] => { team with members := members1 }
    | m :: rest =>
      { team with members := { m with isManager := true } :: rest,
                  manager := some m.playerId }
  else { team with members := members1 }

/-- `GameState.removePlayer` (src/server.js lines 94-114). -/
def GameState.removePlayer (s : GameState) (playerId : String) : GameState :=
  let s1 :=
    match mapGet s.players playerId with
    | none => s
    | some player =>
      match mapGet s.teams player.teamName with
      | none => s
      | some team =>
        if (team.members.filter (fun (m : Member) => m.playerId ≠ playerId)).isEmpty then
          { s with teams := mapDelete s.teams player.teamName }
        else
          { s with teams := mapSet s.teams player.teamName (removePlayerTeam playerId team) }
  { s1 with players := mapDelete s1.players playerId,
            buzzedPlayers := s1.buzzedPlayers.filter (fun b => b.playerId ≠ playerId) }

/-- `GameState.handleBuzz` (src/server.js lines 116-137): returns the
success flag together with the updated state.  Note the teammate check
resolves each queued record through the *current* `players` map. -/
def GameState.handleBuzz (s : GameState) (playerId : String) (now : Nat) :
    Bool × GameState :=
  match mapGet s.players playerId with
  | none => (false, s)
  | some player =>
    if !s.gameStarted then (false, s)
    else
      let teamHasBuzzed := s.buzzedPlayers.any (fun b =>
        match mapGet s.players b.playerId with
        | some bp => bp.teamName == player.teamName
        | none => false)
      if teamHasBuzzed then (false, s)
      else
        (true, { s with buzzedPlayers := s.buzzedPlayers ++
          [{ playerId := playerId, playerName := player.name,
             teamName := player.teamName, timestamp := now }] })

/-- Message destinations used by the submit-score handler. -/
inductive Dest where
  | sender
  | host
deriving DecidableEq, Repr

/-- Outbound messages relevant to score submission (src/server.js lines 643-684). -/
inductive Msg where
  | errorMsg (text : String)
  | scoreSubmitted (teamName : String) (score : Int) (roundIndex : Int) (totalScore : Int)
  | scoreConfirmed (score : Int) (totalScore : Int)
deriving DecidableEq, Repr

/-- The flattened round-index loop of `handleSubmitScore`
(src/server.js lines 651-658): `for (let g = 1; g < gameNum; g++)`
adds the round count of game `g` when the entry exists, then adds
`round - 1`.  Message numbers are JavaScript numbers, embedded as `Int`. -/
def calcRoundIndex (games : List (String × Nat)) (gameNum round : Int) : Int :=
  (List.range (gameNum - 1).toNat).foldl
    (fun acc g => acc + (((games.get? g).map (fun p => (p.2 : Int))).getD 0)) 0
  + (round - 1)

/-- JavaScript sparse-array element assignment `arr[i] = v` for `i ≥ 0`:
extend with holes as needed. -/
def listSetAt (l : List (Option Int)) (i : Nat) (v : Option Int) : List (Option Int) :=
  if i < l.length then l.set i v
  else l ++ List.replicate (i - l.length) none ++ [v]

/-- JavaScript `arr[i] = v` for an `Int` index: a negative index creates a
non-element property and leaves the array elements unchanged. -/
def listSetI (l : List (Option Int)) (i : Int) (v : Option Int) : List (Option Int) :=
  if i < 0 then l else listSetAt l i.toNat v

/-- `roundScores.reduce((sum, s) => sum + (s || 0), 0)`: holes and
undefined entries contribute 0. -/
def sumScores (l : List (Option Int)) : Int :=
  (l.map (fun s => s.getD 0)).sum

/-- `handleSubmitScore` (src/server.js lines 632-687), after the game-code
lookup has succeeded: returns the updated state and the messages sent.
An absent team returns silently; a missing player or a non-manager
player receives the `ERROR` message; otherwise the score is written at
the flattened round index and `totalScore` is recomputed. -/
def handleSubmitScore (s : GameState) (playerId teamName : String) (score : Int)
    (gameNum round : Int) : GameState × List (Dest × Msg) :=
  match mapGet s.teams teamName with
  | none => (s, [])
  | some team =>
    let authorized :=
      match mapGet s.players playerId with
      | none => false
      | some _ => team.manager == some playerId
    if !authorized then
      (s, [(Dest.sender, Msg.errorMsg "Only team managers can submit scores")])
    else
      let roundIndex := calcRoundIndex s.games gameNum round
      let roundScores := listSetI team.roundScores roundIndex (some score)
      let total := sumScores roundScores
      let team1 := { team with roundScores := roundScores, totalScore := total }
      ({ s with teams := mapSet s.teams teamName team1 },
       [(Dest.host, Msg.scoreSubmitted teamName score roundIndex total),
        (Dest.sender, Msg.scoreConfirmed score total)])

/-- The state effect of `handleScoreUpdated` (src/server.js lines 711-733):
unconditional overwrite of `roundScores` and `totalScore`, trusting the
host-supplied values. -/
def setScores (s : GameState) (teamName : String) (scores : List (Option Int))
    (total : Int) : GameState :=
  match mapGet s.teams teamName with
  | none => s
  | some team =>
    let team1 := { team with roundScores := scores, totalScore := total }
    { s with teams := mapSet s.teams teamName team1 }

/-- The state effect of `handleManagerChanged` (src/server.js lines 689-709). -/
def setManager (s : GameState) (teamName newManagerId : String) : GameState :=
  match mapGet s.teams teamName with
  | none => s
  | some team =>
    let team1 :=
      { team with manager := some newManagerId,
                  members := team.members.map
                    (fun m => { m with isManager := m.playerId == newManagerId }) }
    { s with teams := mapSet s.teams teamName team1 }

/-- The state effect of `handleClearBuzzers` (src/server.js line 584). -/
def clearAllBuzzes (s : GameState) : GameState :=
  { s with buzzedPlayers := [] }

/-- The state effect of `handleClearPlayerBuzz` (src/server.js lines 600-602):
`findIndex` plus `splice(_, 1)` removes the first matching record. -/
def clearPlayerBuzz (s : GameState) (playerId : String) : GameState :=
  { s with buzzedPlayers := s.buzzedPlayers.eraseP (fun b => b.playerId == playerId) }

/-- The state effect of `handleGameStarted` (src/server.js lines 498-501). -/
def startGame (s : GameState) (gs : List (String × Nat)) (cg cr : Nat) : GameState :=
  { s with gameStarted := true, games := gs, currentGame := cg, currentRound := cr }

/-- The state effect of `handleRoundUpdate` (src/server.js lines 517-519). -/
def roundUpdate (s : GameState) (cg cr : Nat) : GameState :=
  { s with currentGame := cg, currentRound := cr, scoringEnabled := false }

/-- The state effect of `handleEnableScoring` (src/server.js line 623). -/
def enableScoring (s : GameState) : GameState :=
  { s with scoringEnabled := true }

/-- The state effect of `handleRevealFinalScores` (src/server.js line 739). -/
def revealFinal (s : GameState) : GameState :=
  { s with gameEnded := true }

/-- The player branch of `handleDisconnection` (src/server.js line 795):
the buzz record is dropped but roster membership is kept. -/
def disconnectPlayer (s : GameState) (playerId : String) : GameState :=
  { s with buzzedPlayers := s.buzzedPlayers.filter (fun b => b.playerId ≠ playerId) }

/-- One Router-dispatched session mutation. -/
inductive Op where
  | addPlayer (playerId : String) (pd : PlayerData)
  | removePlayer (playerId : String)
  | buzz (playerId : String) (now : Nat)
  | clearAll
  | clearPlayer (playerId : String)
  | start (games : List (String × Nat)) (cg cr : Nat)
  | round (cg cr : Nat)
  | enable
  | submit (playerId teamName : String) (score : Int) (gameNum roundNum : Int)
  | changeManager (teamName newManagerId : String)
  | updateScores (teamName : String) (scores : List (Option Int)) (total : Int)
  | reveal
  | disconnect (playerId : String)
deriving DecidableEq, Repr

/-- Apply one operation to a session state. -/
def applyOp (s : GameState) : Op → GameState
  | .addPlayer pid pd => s.addPlayer pid pd
  | .removePlayer pid => s.removePlayer pid
  | .buzz pid now => (s.handleBuzz pid now).2
  | .clearAll => clearAllBuzzes s
  | .clearPlayer pid => clearPlayerBuzz s pid
  | .start gs cg cr => startGame s gs cg cr
  | .round cg cr => roundUpdate s cg cr
  | .enable => enableScoring s
  | .submit pid tn sc g r => (handleSubmitScore s pid tn sc g r).1
  | .changeManager tn mid => setManager s tn mid
  | .updateScores tn scores total => setScores s tn scores total
  | .reveal => revealFinal s
  | .disconnect pid => disconnectPlayer s pid

/-- Apply a sequence of operations. -/
def runOps (s : GameState) (ops : List Op) : GameState :=
  ops.foldl applyOp s

/-- The Firebase persistence record written by `saveGameState`
(src/server.js lines 155-177). -/
structure PlainState where
  gameCode : String
  hostId : String
  currentGame : Nat
  currentRound : Nat
  games : List (String × Nat)
  teams : List Team
  players : List (String × PlayerData)
  buzzedPlayers : List BuzzRecord
  scoringEnabled : Bool
  gameStarted : Bool
  gameEnded : Bool
  createdAt : Nat
  expiresAt : Nat
deriving DecidableEq, Repr

/-- `saveGameState` (src/server.js lines 155-177): `teams` stores the map
values, `players` stores the entry list, `expiresAt` is write time plus
four hours. -/
def saveGameState (s : GameState) (now : Nat) : PlainState :=
  { gameCode := s.gameCode
    hostId := s.hostId
    currentGame := s.currentGame
    currentRound := s.currentRound
    games := s.games
    teams := s.teams.map (fun p => p.2)
    players := s.players
    buzzedPlayers := s.buzzedPlayers
    scoringEnabled := s.scoringEnabled
    gameStarted := s.gameStarted
    gameEnded := s.gameEnded
    createdAt := s.createdAt
    expiresAt := now + 4 * 60 * 60 * 1000 }

/-- `loadGameState` (src/server.js lines 180-210) given the stored record:
a record past `expiresAt` is treated as not found, otherwise the session
is rebuilt with the teams map keyed by each team's `name`. -/
def loadGameState (d : PlainState) (now : Nat) : Option GameState :=
  if d.expiresAt ≠ 0 ∧ now > d.expiresAt then none
  else some
    { GameState.new d.gameCode d.hostId 0 with
      currentGame := d.currentGame
      currentRound := d.currentRound
      games := d.games
      teams := d.teams.map (fun t => (t.name, t))
      players := d.players
      buzzedPlayers := d.buzzedPlayers
      scoringEnabled := d.scoringEnabled
      gameStarted := d.gameStarted
      gameEnded := d.gameEnded
      createdAt := d.createdAt }

/-- A connection-directory entry (src/server.js `connections` map);
channels are abstract numeric identifiers. -/
inductive ConnInfo where
  | host (gameCode : String) (hostId : String)
  | player (gameCode : String) (playerId : String) (teamName : String)
deriving DecidableEq, Repr

/-- The process-wide registry and connection directory. -/
structure Server where
  games : List (String × GameState)
  connections : List (Nat × ConnInfo)
deriving DecidableEq, Repr

/-- Candidate game codes tried by `handleCreateGame`: the requested code
when truthy, then the successive draws of `generateGameCode()`. -/
def createCandidates (requested : Option String) (supply : List String) : List String :=
  match requested with
  | some c => if c = "" then supply else c :: supply
  | none => supply

/-- `handleCreateGame` (src/server.js lines 350-378): the `while` loop
keeps drawing codes until one is unused, so the chosen code is the first
candidate not resident in the registry (`none` models a supply that never
produces a fresh code, in which case the loop does not terminate). -/
def handleCreateGame (srv : Server) (ws : Nat) (requested : Option String)
    (hostId : String) (supply : List String) (now : Nat) : Server × Option String :=
  match (createCandidates requested supply).find?
      (fun c => (mapGet srv.games c).isNone) with
  | none => (srv, none)
  | some code =>
    let gs := { GameState.new code hostId now with hostConnection := some ws }
    ({ games := mapSet srv.games code gs,
       connections := mapSet srv.connections ws (ConnInfo.host code hostId) },
     some code)

theorem foldlAdd (f : Nat → Int) (l : List Nat) (a : Int) :
    l.foldl (fun acc x => acc + f x) a = a + (l.map f).sum := by
  induction l generalizing a with
  | nil => simp
  | cons x l ih => simp [List.foldl_cons, ih, add_assoc]

theorem calcRoundIndex_eq_take (games : List (String × Nat)) (gameNum round : Int) :
    calcRoundIndex games gameNum round =
      ((games.take (gameNum - 1).toNat).map (fun q => (q.2 : Int))).sum + (round - 1) := by
  unfold calcRoundIndex
  rw [foldlAdd]
  rw [zero_add]
  congr 1
  generalize (gameNum - 1).toNat = n
  induction n with
  | zero => simp
  | succ n ih =>
    rw [List.range_succ, List.map_append, List.sum_append, ih, List.take_succ,
      List.map_append, List.sum_append]
    congr 1
    cases h : games[n]? <;> simp [h]

theorem listSetAt_get (l : List (Option Int)) (i : Nat) (v : Option Int) :
    (listSetAt l i v)[i]? = some v := by
  unfold listSetAt
  split
  · next h => exact List.getElem?_set_self h
  · next h =>
    have h1 : l.length ≤ i := Nat.le_of_not_lt h
    have h2 : (l ++ List.replicate (i - l.length) none).length = i := by
      simp only [List.length_append, List.length_replicate]
      omega
    rw [List.getElem?_append_right (le_of_eq h2)]
    simp [h2]

theorem listSetI_get (l : List (Option Int)) (i : Int) (v : Option Int) (h : 0 ≤ i) :
    (listSetI l i v)[i.toNat]? = some v := by
  unfold listSetI
  rw [if_neg (by omega)]
  exact listSetAt_get l i.toNat v

/-- C3: a `submitScore` invocation whose claimed `playerId` is not the named
team's current manager (including an unknown `playerId`) sends only the
`Unauthorized` error message (`"Only team managers can submit scores"`) to
the sender, and the whole session state — in particular the team's
`roundScores` and `totalScore` — is exactly as before the call. -/
theorem submitScore_unauthorized (s : GameState) (playerId teamName : String)
    (score : Int) (gameNum round : Int) (team : Team)
    (hteam : mapGet s.teams teamName = some team)
    (hmgr : team.manager ≠ some playerId) :
    handleSubmitScore s playerId teamName score gameNum round =
      (s, [(Dest.sender, Msg.errorMsg "Only team managers can submit scores")]) := by
  unfold handleSubmitScore
  rw [hteam]
  have hauth : (match mapGet s.players playerId with
      | none => false
      | some _ => team.manager == some playerId) = false := by
    cases mapGet s.players playerId with
    | none => rfl
    | some p => simpa using hmgr
  simp only [hauth, Bool.not_false, if_true]

/-- A concrete session: host `host1` created game `123456`, player `A`
(Alice) joined team `Red` and became its manager, and the host started a
two-game schedule with 3 and 2 rounds. -/
def exStateA : GameState :=
  runOps (GameState.new "123456" "host1" 0)
    [ .addPlayer "A" { name := "Alice", teamName := "Red", isManager := false },
      .start [("A", 3), ("B", 2)] 1 1 ]

/-- The team record of `Red` inside `exStateA`. -/
def exTeamRed : Team :=
  { name := "Red", members := [{ playerId := "A", name := "Alice", isManager := true }],
    totalScore := 0, roundScores := [], manager := some "A" }

theorem submitScore_unauthorized_witness :
    mapGet exStateA.teams "Red" = some exTeamRed
    ∧ handleSubmitScore exStateA "B" "Red" 50 1 1 =
        (exStateA, [(Dest.sender, Msg.errorMsg "Only team managers can submit scores")]) :=
  ⟨by decide,
   submitScore_unauthorized exStateA "B" "Red" 50 1 1 exTeamRed (by decide) (by decide)⟩

/-- C7 counterexample: submitting a score for a team absent from the
session sends no message at all — in particular no `TeamNotFound` (or any
typed error) event reaches the originating channel, contrary to the claim. -/
theorem submitScore_absentTeam_counterexample :
    mapGet exStateA.teams "Blue" = none
    ∧ (handleSubmitScore exStateA "A" "Blue" 50 1 1).2 = []
    ∧ ¬ ∃ m, m ∈ (handleSubmitScore exStateA "A" "Blue" 50 1 1).2 := by
  refine ⟨by decide, by decide, ?_⟩
  intro hm
  obtain ⟨m, hm⟩ := hm
  have h2 : (handleSubmitScore exStateA "A" "Blue" 50 1 1).2 = [] := by decide
  rw [h2] at hm
  exact List.not_mem_nil m hm

/-- C7 amended: a `submitScore` invocation naming a team absent from the
session is a silent no-op — the session state is unchanged and no message
(in particular no error event) is sent to any channel. -/
theorem submitScore_absentTeam_silent (s : GameState) (playerId teamName : String)
    (score : Int) (gameNum round : Int)
    (hteam : mapGet s.teams teamName = none) :
    handleSubmitScore s playerId teamName score gameNum round = (s, []) := by
  unfold handleSubmitScore
  rw [hteam]

theorem submitScore_absentTeam_silent_witness :
    mapGet exStateA.teams "Blue" = none
    ∧ handleSubmitScore exStateA "A" "Blue" 50 1 1 = (exStateA, []) :=
  ⟨by decide, submitScore_absentTeam_silent exStateA "A" "Blue" 50 1 1 (by decide)⟩

/-- C9: the flattened-round-index computation is total for every
`gameNum ≥ 1`: game positions past the end of the `games` list contribute
0 rounds (the sum ranges only over the entries that exist, i.e. over
`take (gameNum - 1)`), and with an empty games list the index is
`round - 1` for any such `gameNum`. -/
theorem calcRoundIndex_total (games : List (String × Nat)) (gameNum round : Int)
    (hg : 1 ≤ gameNum) :
    calcRoundIndex games gameNum round =
      ((games.take (gameNum - 1).toNat).map (fun q => (q.2 : Int))).sum + (round - 1)
    ∧ calcRoundIndex [] gameNum round = round - 1 := by
  refine ⟨calcRoundIndex_eq_take games gameNum round, ?_⟩
  rw [calcRoundIndex_eq_take]
  simp

theorem calcRoundIndex_total_witness :
    (1 : Int) ≤ 7
    ∧ (calcRoundIndex [("A", 3)] 7 4 =
        (([("A", 3)].take ((7 : Int) - 1).toNat).map (fun q => (q.2 : Int))).sum + (4 - 1)
      ∧ calcRoundIndex [] 7 4 = 4 - 1) :=
  ⟨by decide, calcRoundIndex_total [("A", 3)] 7 4 (by decide)⟩

/-- C4: a successful `submitScore` for game `gameNum` (1-based) and round
`round` (1-based) computes the flattened index as the sum of the round
counts of games `1..gameNum-1` plus `round - 1`, writes the score at that
index of the team's `roundScores`, and reports that index back; in
particular with `games = [("A",3), ("B",2)]`, game 2 round 2 yields
index 4. -/
theorem submitScore_success (s : GameState) (playerId teamName : String)
    (score : Int) (gameNum round : Int) (team : Team) (p : PlayerData)
    (hteam : mapGet s.teams teamName = some team)
    (hp : mapGet s.players playerId = some p)
    (hmgr : team.manager = some playerId)
    (hg : 1 ≤ gameNum) (hr : 1 ≤ round) :
    calcRoundIndex s.games gameNum round =
        ((s.games.take (gameNum - 1).toNat).map (fun q => (q.2 : Int))).sum + (round - 1)
    ∧ (∃ team1 : Team,
        mapGet (handleSubmitScore s playerId teamName score gameNum round).1.teams teamName
            = some team1
        ∧ team1.roundScores[(calcRoundIndex s.games gameNum round).toNat]? = some (some score)
        ∧ (handleSubmitScore s playerId teamName score gameNum round).2 =
            [(Dest.host,
              Msg.scoreSubmitted teamName score (calcRoundIndex s.games gameNum round)
                team1.totalScore),
             (Dest.sender, Msg.scoreConfirmed score team1.totalScore)])
    ∧ calcRoundIndex [("A", 3), ("B", 2)] 2 2 = 4 := by
  have hnn : 0 ≤ calcRoundIndex s.games gameNum round := by
    rw [calcRoundIndex_eq_take]
    have h1 : 0 ≤ ((s.games.take (gameNum - 1).toNat).map (fun q => (q.2 : Int))).sum := by
      apply List.sum_nonneg
      intro x hx
      simp only [List.mem_map] at hx
      obtain ⟨q, hq, rfl⟩ := hx
      exact Int.natCast_nonneg q.2
    omega
  have hred : handleSubmitScore s playerId teamName score gameNum round =
      ({ s with
          teams :=
            mapSet s.teams teamName
              ({ team with
                  roundScores :=
                    listSetI team.roundScores (calcRoundIndex s.games gameNum round)
                      (some score),
                  totalScore :=
                    sumScores
                      (listSetI team.roundScores (calcRoundIndex s.games gameNum round)
                        (some score)) }) },
       [(Dest.host, Msg.scoreSubmitted teamName score (calcRoundIndex s.games gameNum round)
           (sumScores (listSetI team.roundScores (calcRoundIndex s.games gameNum round)
             (some score)))),
        (Dest.sender, Msg.scoreConfirmed score
           (sumScores (listSetI team.roundScores (calcRoundIndex s.games gameNum round)
             (some score))))]) := by
    simp only [handleSubmitScore, hteam, hp, hmgr, beq_self_eq_true, Bool.not_true,
      Bool.false_eq_true, if_false]
  refine ⟨calcRoundIndex_eq_take s.games gameNum round, ?_, by decide⟩
  rw [hred]
  exact ⟨_, mapGet_mapSet_self _ _ _, listSetI_get _ _ _ hnn, rfl⟩

theorem submitScore_success_witness :
    mapGet exStateA.teams "Red" = some exTeamRed
    ∧ mapGet exStateA.players "A" =
        some { name := "Alice", teamName := "Red", isManager := false }
    ∧ exTeamRed.manager = some "A"
    ∧ (1 : Int) ≤ 2
    ∧ (calcRoundIndex exStateA.games 2 2 =
          ((exStateA.games.take ((2 : Int) - 1).toNat).map (fun q => (q.2 : Int))).sum + (2 - 1)
       ∧ (∃ team1 : Team,
            mapGet (handleSubmitScore exStateA "A" "Red" 50 2 2).1.teams "Red" = some team1
            ∧ team1.roundScores[(calcRoundIndex exStateA.games 2 2).toNat]? = some (some 50)
            ∧ (handleSubmitScore exStateA "A" "Red" 50 2 2).2 =
                [(Dest.host,
                  Msg.scoreSubmitted "Red" 50 (calcRoundIndex exStateA.games 2 2)
                    team1.totalScore),
                 (Dest.sender, Msg.scoreConfirmed 50 team1.totalScore)])
       ∧ calcRoundIndex [("A", 3), ("B", 2)] 2 2 = 4) :=
  ⟨by decide, by decide, by decide, by decide,
   submitScore_success exStateA "A" "Red" 50 2 2 exTeamRed
     { name := "Alice", teamName := "Red", isManager := false }
     (by decide) (by decide) (by decide) (by decide) (by decide)⟩

/-- C10: when `addPlayer` is called with a `playerId` that is already a
member of the named team (rejoin), no member is added or removed and each
member keeps its original `playerId` and display `name` (the descriptor's
name is not updated even when the new `playerData.name` differs); only
the `isManager` flags may change.  The `players`-map entry, by contrast,
is overwritten with the new data. -/
theorem addPlayer_rejoin (s : GameState) (playerId : String) (pd : PlayerData) (team : Team)
    (hteam : mapGet s.teams pd.teamName = some team)
    (hmem : team.members.any (fun m => m.playerId == playerId) = true) :
    mapGet (s.addPlayer playerId pd).players playerId = some pd
    ∧ ∃ team1 : Team,
        mapGet (s.addPlayer playerId pd).teams pd.teamName = some team1
        ∧ team1.members.map (fun m => (m.playerId, m.name))
            = team.members.map (fun m => (m.playerId, m.name)) := by
  have hred : s.addPlayer playerId pd =
      { s with players := mapSet s.players playerId pd,
               teams := mapSet s.teams pd.teamName (addPlayerTeam playerId pd team) } := by
    simp only [GameState.addPlayer, hteam, Option.isSome_some, if_true]
  have hupd : addPlayerTeam playerId pd team =
      (if pd.isManager || managerFalsy team.manager then
        ({ team with manager := some playerId,
                     members := team.members.map
                       (fun m => { m with isManager := m.playerId == playerId }) })
       else team) := by
    simp only [addPlayerTeam, hmem, if_true]
  rw [hred, hupd]
  by_cases hcond : (pd.isManager || managerFalsy team.manager) = true
  · rw [if_pos hcond]
    refine ⟨mapGet_mapSet_self _ _ _, _, mapGet_mapSet_self _ _ _, ?_⟩
    rw [List.map_map]
    rfl
  · rw [if_neg hcond]
    exact ⟨mapGet_mapSet_self _ _ _, _, mapGet_mapSet_self _ _ _, rfl⟩

theorem addPlayer_rejoin_witness :
    mapGet exStateA.teams "Red" = some exTeamRed
    ∧ exTeamRed.members.any (fun m => m.playerId == "A") = true
    ∧ (mapGet (exStateA.addPlayer "A"
          { name := "Alfred", teamName := "Red", isManager := false }).players "A" =
        some { name := "Alfred", teamName := "Red", isManager := false }
       ∧ ∃ team1 : Team,
          mapGet (exStateA.addPlayer "A"
              { name := "Alfred", teamName := "Red", isManager := false }).teams "Red"
            = some team1
          ∧ team1.members.map (fun m => (m.playerId, m.name))
              = exTeamRed.members.map (fun m => (m.playerId, m.name))) :=
  ⟨by decide, by decide,
   addPlayer_rejoin exStateA "A" { name := "Alfred", teamName := "Red", isManager := false }
     exTeamRed (by decide) (by decide)⟩

theorem mapPairs_eq_self (l : List (String × Team)) (hl : ∀ p ∈ l, p.1 = p.2.name) :
    (l.map (fun p => p.2)).map (fun t => (t.name, t)) = l := by
  induction l with
  | nil => rfl
  | cons q l ih =>
    have hq := hl q (List.mem_cons_self _ _)
    simp only [List.map_cons]
    rw [ih (fun p hp => hl p (List.mem_cons_of_mem _ hp))]
    obtain ⟨k, t⟩ := q
    simp only at hq
    rw [← hq]

/-- C5: serializing a session with `saveGameState` and deserializing the
record with `loadGameState` (before its expiry) yields a session whose
teams, players, buzz queue, cursor (`currentGame`, `currentRound`,
`games`) and flags (`gameStarted`, `gameEnded`, `scoringEnabled`) are
identical to the original's; the transient connection references are
excluded (`hostConnection` comes back `none`).  The hypothesis that each
teams-map key equals its team's `name` holds for every state the server
builds, since teams are always stored under their own name. -/
theorem saveLoad_roundTrip (s : GameState) (wnow rnow : Nat)
    (hkeys : ∀ p ∈ s.teams, p.1 = p.2.name)
    (hfresh : rnow ≤ wnow + 4 * 60 * 60 * 1000) :
    ∃ s1 : GameState,
      loadGameState (saveGameState s wnow) rnow = some s1
      ∧ s1.teams = s.teams ∧ s1.players = s.players ∧ s1.buzzedPlayers = s.buzzedPlayers
      ∧ s1.currentGame = s.currentGame ∧ s1.currentRound = s.currentRound
      ∧ s1.games = s.games ∧ s1.gameStarted = s.gameStarted ∧ s1.gameEnded = s.gameEnded
      ∧ s1.scoringEnabled = s.scoringEnabled ∧ s1.gameCode = s.gameCode
      ∧ s1.hostId = s.hostId ∧ s1.createdAt = s.createdAt ∧ s1.hostConnection = none := by
  have hcond : ¬ ((saveGameState s wnow).expiresAt ≠ 0
      ∧ rnow > (saveGameState s wnow).expiresAt) := by
    simp only [saveGameState]
    omega
  refine ⟨{ s with hostConnection := none }, ?_, rfl, rfl, rfl, rfl, rfl, rfl, rfl, rfl,
    rfl, rfl, rfl, rfl, rfl⟩
  unfold loadGameState
  rw [if_neg hcond]
  simp only [saveGameState]
  rw [mapPairs_eq_self s.teams hkeys]
  rfl

theorem saveLoad_roundTrip_witness :
    (∀ p ∈ exStateA.teams, p.1 = p.2.name)
    ∧ (1000 : Nat) ≤ 0 + 4 * 60 * 60 * 1000
    ∧ ∃ s1 : GameState,
        loadGameState (saveGameState exStateA 0) 1000 = some s1
        ∧ s1.teams = exStateA.teams ∧ s1.players = exStateA.players
        ∧ s1.buzzedPlayers = exStateA.buzzedPlayers
        ∧ s1.currentGame = exStateA.currentGame ∧ s1.currentRound = exStateA.currentRound
        ∧ s1.games = exStateA.games ∧ s1.gameStarted = exStateA.gameStarted
        ∧ s1.gameEnded = exStateA.gameEnded
        ∧ s1.scoringEnabled = exStateA.scoringEnabled ∧ s1.gameCode = exStateA.gameCode
        ∧ s1.hostId = exStateA.hostId ∧ s1.createdAt = exStateA.createdAt
        ∧ s1.hostConnection = none :=
  ⟨by decide, by decide, saveLoad_roundTrip exStateA 0 1000 (by decide) (by decide)⟩

/-- C8: processing `CREATE_GAME` with a requested code already resident in
the registry never rebinds or mutates the existing session: the chosen
code is a fresh one, the existing session's entry (including its
`hostConnection`, teams and flags) is unchanged, the new session is a
fresh `GameState` whose host connection is the sender, and the sender's
directory entry binds it as host of the new code only. -/
theorem createGame_existing_code (srv : Server) (ws : Nat) (req hostId : String)
    (supply : List String) (now : Nat) (old : GameState) (srv1 : Server) (code : String)
    (hold : mapGet srv.games req = some old)
    (hres : handleCreateGame srv ws (some req) hostId supply now = (srv1, some code)) :
    code ≠ req
    ∧ mapGet srv1.games req = some old
    ∧ mapGet srv1.games code =
        some { GameState.new code hostId now with hostConnection := some ws }
    ∧ mapGet srv1.connections ws = some (ConnInfo.host code hostId) := by
  unfold handleCreateGame at hres
  cases hfind : (createCandidates (some req) supply).find?
      (fun c => (mapGet srv.games c).isNone) with
  | none =>
    rw [hfind] at hres
    exact absurd (congrArg Prod.snd hres) (by simp)
  | some c =>
    rw [hfind] at hres
    have hcode : some c = some code := congrArg Prod.snd hres
    injection hcode with hcode
    subst hcode
    have hfresh : (mapGet srv.games c).isNone = true := by
      have := List.find?_some hfind
      simpa using this
    have hnone : mapGet srv.games c = none := by
      cases hget : mapGet srv.games c with
      | none => rfl
      | some g => rw [hget] at hfresh; simp at hfresh
    have hne : c ≠ req := by
      intro hh
      rw [hh, hold] at hnone
      exact Option.noConfusion hnone
    have hsrv1 : srv1 =
        { games := mapSet srv.games c
            { GameState.new c hostId now with hostConnection := some ws },
          connections := mapSet srv.connections ws (ConnInfo.host c hostId) } :=
      (congrArg Prod.fst hres).symm
    subst hsrv1
    refine ⟨hne, ?_, mapGet_mapSet_self _ _ _, mapGet_mapSet_self _ _ _⟩
    rw [mapGet_mapSet_ne _ _ _ _ (fun hh => hne hh.symm)]
    exact hold

/-- A one-game registry used as concrete input for the create-game claim. -/
def exSrv : Server := { games := [("123456", exStateA)], connections := [] }

/-- The registry after `CREATE_GAME` with taken code `123456` and supply
`["222222"]`. -/
def exSrv1 : Server :=
  { games := [("123456", exStateA),
              ("222222", { GameState.new "222222" "h2" 50 with hostConnection := some 7 })],
    connections := [(7, ConnInfo.host "222222" "h2")] }

theorem createGame_existing_code_witness :
    mapGet exSrv.games "123456" = some exStateA
    ∧ handleCreateGame exSrv 7 (some "123456") "h2" ["222222"] 50 = (exSrv1, some "222222")
    ∧ ("222222" ≠ "123456"
       ∧ mapGet exSrv1.games "123456" = some exStateA
       ∧ mapGet exSrv1.games "222222" =
           some { GameState.new "222222" "h2" 50 with hostConnection := some 7 }
       ∧ mapGet exSrv1.connections 7 = some (ConnInfo.host "222222" "h2")) :=
  ⟨by decide, by decide,
   createGame_existing_code exSrv 7 "123456" "h2" ["222222"] 50 exStateA exSrv1 "222222"
     (by decide) (by decide)⟩

theorem mapSet_mapSet_self {κ α : Type} [DecidableEq κ] (m : List (κ × α)) (k : κ) (v w : α) :
    mapSet (mapSet m k v) k w = mapSet m k w := by
  induction m with
  | nil => simp [mapSet]
  | cons p m ih => by_cases h : p.1 = k <;> simp [mapSet, h, ih]

theorem forall_mem_mapSet {κ α : Type} [DecidableEq κ] {P : κ × α → Prop}
    {m : List (κ × α)} {k : κ} {v : α}
    (hm : ∀ p ∈ m, P p) (hv : P (k, v)) : ∀ p ∈ mapSet m k v, P p := by
  intro p hp
  rcases mem_mapSet hp with h | h
  · rw [h]; exact hv
  · exact hm p h

theorem forall_mem_mapDelete {κ α : Type} [DecidableEq κ] {P : κ × α → Prop}
    {m : List (κ × α)} {k : κ} (hm : ∀ p ∈ m, P p) : ∀ p ∈ mapDelete m k, P p :=
  fun p hp => hm p (mem_mapDelete hp)

/-- Case analysis on `addPlayer`: the team written under `pd.teamName` is
`addPlayerTeam` applied to the existing team, or to a fresh team when the
name was unknown; all other state is preserved except the `players` map. -/
theorem addPlayer_cases (s : GameState) (pid : String) (pd : PlayerData) :
    (∃ team : Team, mapGet s.teams pd.teamName = some team ∧
       s.addPlayer pid pd =
         { s with players := mapSet s.players pid pd,
                  teams := mapSet s.teams pd.teamName (addPlayerTeam pid pd team) })
    ∨ (mapGet s.teams pd.teamName = none ∧
       s.addPlayer pid pd =
         { s with players := mapSet s.players pid pd,
                  teams := mapSet s.teams pd.teamName
                    (addPlayerTeam pid pd (freshTeam pd.teamName)) }) := by
  cases hget : mapGet s.teams pd.teamName with
  | some team =>
    left
    refine ⟨team, rfl, ?_⟩
    simp only [GameState.addPlayer, hget, Option.isSome_some, if_true]
  | none =>
    right
    refine ⟨rfl, ?_⟩
    simp only [GameState.addPlayer, hget, Option.isSome_none, Bool.false_eq_true, if_false,
      mapGet_mapSet_self, mapSet_mapSet_self]

/-- Case analysis on `removePlayer`: either no team is touched, or the
leaver's team is deleted (when it empties) or rewritten with
`removePlayerTeam`; the `players` map loses the leaver and the buzz queue
drops the leaver's records in every case. -/
theorem removePlayer_cases (s : GameState) (pid : String) :
    ((mapGet s.players pid = none
        ∨ ∃ player : PlayerData, mapGet s.players pid = some player
            ∧ mapGet s.teams player.teamName = none)
      ∧ s.removePlayer pid =
          { s with players := mapDelete s.players pid,
                   buzzedPlayers := s.buzzedPlayers.filter (fun b => b.playerId ≠ pid) })
    ∨ (∃ player : PlayerData, ∃ team : Team,
        mapGet s.players pid = some player
        ∧ mapGet s.teams player.teamName = some team
        ∧ (team.members.filter (fun (m : Member) => m.playerId ≠ pid)).isEmpty = true
        ∧ s.removePlayer pid =
            { s with teams := mapDelete s.teams player.teamName,
                     players := mapDelete s.players pid,
                     buzzedPlayers := s.buzzedPlayers.filter (fun b => b.playerId ≠ pid) })
    ∨ (∃ player : PlayerData, ∃ team : Team,
        mapGet s.players pid = some player
        ∧ mapGet s.teams player.teamName = some team
        ∧ (team.members.filter (fun (m : Member) => m.playerId ≠ pid)).isEmpty = false
        ∧ s.removePlayer pid =
            { s with teams := mapSet s.teams player.teamName (removePlayerTeam pid team),
                     players := mapDelete s.players pid,
                     buzzedPlayers := s.buzzedPlayers.filter (fun b => b.playerId ≠ pid) }) := by
  cases hplayer : mapGet s.players pid with
  | none =>
    left
    refine ⟨Or.inl rfl, ?_⟩
    simp only [GameState.removePlayer, hplayer]
  | some player =>
    cases hteam : mapGet s.teams player.teamName with
    | none =>
      left
      refine ⟨Or.inr ⟨player, rfl, hteam⟩, ?_⟩
      simp only [GameState.removePlayer, hplayer, hteam]
    | some team =>
      cases hemp : (team.members.filter (fun (m : Member) => m.playerId ≠ pid)).isEmpty with
      | true =>
        right; left
        refine ⟨player, team, rfl, hteam, hemp, ?_⟩
        simp only [GameState.removePlayer, hplayer, hteam, hemp, if_true]
      | false =>
        right; right
        refine ⟨player, team, rfl, hteam, hemp, ?_⟩
        simp only [GameState.removePlayer, hplayer, hteam, hemp, Bool.false_eq_true, if_false]

/-- Case analysis on the state component of `handleSubmitScore`: the state
is unchanged unless the lookup and authorization succeed, in which case
only the named team is rewritten with the new score and recomputed total. -/
theorem submitScore_state_cases (s : GameState) (pid tn : String) (sc : Int) (g r : Int) :
    (handleSubmitScore s pid tn sc g r).1 = s
    ∨ ∃ team : Team, mapGet s.teams tn = some team
        ∧ (handleSubmitScore s pid tn sc g r).1 =
            { s with
                teams :=
                  mapSet s.teams tn
                    ({ team with
                        roundScores :=
                          listSetI team.roundScores (calcRoundIndex s.games g r) (some sc),
                        totalScore :=
                          sumScores
                            (listSetI team.roundScores (calcRoundIndex s.games g r)
                              (some sc)) }) } := by
  unfold handleSubmitScore
  cases hget : mapGet s.teams tn with
  | none => left; rfl
  | some team =>
    cases hauth : (match mapGet s.players pid with
        | none => false
        | some _ => team.manager == some pid) with
    | false =>
      left
      simp only [hauth, Bool.not_false, if_true]
    | true =>
      right
      refine ⟨team, rfl, ?_⟩
      simp only [hauth, Bool.not_true, Bool.false_eq_true, if_false]

/-- A team's derived total matches the reduce-sum of its round scores. -/
def teamScoreOk (t : Team) : Prop :=
  t.totalScore = sumScores t.roundScores

instance (t : Team) : Decidable (teamScoreOk t) := by
  unfold teamScoreOk
  infer_instance

/-- Each team of the session satisfies `teamScoreOk`. -/
def scoresConsistent (s : GameState) : Prop :=
  ∀ p ∈ s.teams, teamScoreOk (p : String × Team).2

instance (s : GameState) : Decidable (scoresConsistent s) := by
  unfold scoresConsistent
  infer_instance

/-- A `SCORE_UPDATED` payload is consistent when the claimed total equals
the reduce-sum of the supplied scores; every other operation is
unconstrained. -/
def opScoreConsistent : Op → Prop
  | .updateScores _ scores total => total = sumScores scores
  | _ => True

instance : (op : Op) → Decidable (opScoreConsistent op) := fun op => by
  cases op <;> simp only [opScoreConsistent] <;> infer_instance

theorem addPlayerTeam_scores (pid : String) (pd : PlayerData) (t : Team) :
    (addPlayerTeam pid pd t).totalScore = t.totalScore
    ∧ (addPlayerTeam pid pd t).roundScores = t.roundScores := by
  simp only [addPlayerTeam]
  split <;> exact ⟨rfl, rfl⟩

theorem removePlayerTeam_scores (pid : String) (t : Team) :
    (removePlayerTeam pid t).totalScore = t.totalScore
    ∧ (removePlayerTeam pid t).roundScores = t.roundScores := by
  simp only [removePlayerTeam]
  split
  · split <;> exact ⟨rfl, rfl⟩
  · exact ⟨rfl, rfl⟩

theorem teamScoreOk_of_eq {t t' : Team} (h : teamScoreOk t)
    (h1 : t'.totalScore = t.totalScore) (h2 : t'.roundScores = t.roundScores) :
    teamScoreOk t' := by
  unfold teamScoreOk at *
  rw [h1, h2]
  exact h

theorem handleBuzz_state (s : GameState) (pid : String) (now : Nat) :
    (s.handleBuzz pid now).2.teams = s.teams
    ∧ (s.handleBuzz pid now).2.players = s.players := by
  unfold GameState.handleBuzz
  cases mapGet s.players pid with
  | none => exact ⟨rfl, rfl⟩
  | some player =>
    dsimp only
    split
    · exact ⟨rfl, rfl⟩
    · split <;> exact ⟨rfl, rfl⟩

theorem scoresConsistent_step (s : GameState) (op : Op)
    (hs : scoresConsistent s) (hop : opScoreConsistent op) :
    scoresConsistent (applyOp s op) := by
  cases op with
  | addPlayer pid pd =>
    rcases addPlayer_cases s pid pd with ⟨team, hget, heq⟩ | ⟨hget, heq⟩
    · show scoresConsistent (s.addPlayer pid pd)
      rw [heq]
      have h1 : teamScoreOk (addPlayerTeam pid pd team) :=
        teamScoreOk_of_eq (hs (pd.teamName, team) (mapGet_mem hget))
          (addPlayerTeam_scores pid pd team).1 (addPlayerTeam_scores pid pd team).2
      exact fun p hp => forall_mem_mapSet hs h1 p hp
    · show scoresConsistent (s.addPlayer pid pd)
      rw [heq]
      have h0 : teamScoreOk (freshTeam pd.teamName) := rfl
      have h1 : teamScoreOk (addPlayerTeam pid pd (freshTeam pd.teamName)) :=
        teamScoreOk_of_eq h0 (addPlayerTeam_scores pid pd _).1 (addPlayerTeam_scores pid pd _).2
      exact fun p hp => forall_mem_mapSet hs h1 p hp
  | removePlayer pid =>
    rcases removePlayer_cases s pid with ⟨_, heq⟩ | ⟨player, team, _, hget, _, heq⟩ |
      ⟨player, team, _, hget, _, heq⟩
    · show scoresConsistent (s.removePlayer pid)
      rw [heq]
      exact fun p hp => hs p hp
    · show scoresConsistent (s.removePlayer pid)
      rw [heq]
      exact fun p hp => forall_mem_mapDelete hs p hp
    · show scoresConsistent (s.removePlayer pid)
      rw [heq]
      have h1 : teamScoreOk (removePlayerTeam pid team) :=
        teamScoreOk_of_eq (hs (player.teamName, team) (mapGet_mem hget))
          (removePlayerTeam_scores pid team).1 (removePlayerTeam_scores pid team).2
      exact fun p hp => forall_mem_mapSet hs h1 p hp
  | buzz pid now =>
    intro p hp
    rw [show (applyOp s (Op.buzz pid now)).teams = s.teams from
      (handleBuzz_state s pid now).1] at hp
    exact hs p hp
  | clearAll => exact fun p hp => hs p hp
  | clearPlayer pid => exact fun p hp => hs p hp
  | start gs cg cr => exact fun p hp => hs p hp
  | round cg cr => exact fun p hp => hs p hp
  | enable => exact fun p hp => hs p hp
  | reveal => exact fun p hp => hs p hp
  | disconnect pid => exact fun p hp => hs p hp
  | submit pid tn sc g r =>
    rcases submitScore_state_cases s pid tn sc g r with heq | ⟨team, hget, heq⟩
    · show scoresConsistent (handleSubmitScore s pid tn sc g r).1
      rw [heq]
      exact hs
    · show scoresConsistent (handleSubmitScore s pid tn sc g r).1
      rw [heq]
      have h1 : teamScoreOk ({ team with
          roundScores := listSetI team.roundScores (calcRoundIndex s.games g r) (some sc),
          totalScore := sumScores
            (listSetI team.roundScores (calcRoundIndex s.games g r) (some sc)) }) := rfl
      exact fun p hp => forall_mem_mapSet hs h1 p hp
  | changeManager tn mid =>
    show scoresConsistent (setManager s tn mid)
    unfold setManager
    cases hget : mapGet s.teams tn with
    | none => exact hs
    | some team =>
      have h1 : teamScoreOk
          ({ team with
              manager := some mid,
              members := team.members.map
                (fun m => { m with isManager := m.playerId == mid }) }) :=
        hs (tn, team) (mapGet_mem hget)
      exact fun p hp => forall_mem_mapSet hs h1 p hp
  | updateScores tn scores total =>
    show scoresConsistent (setScores s tn scores total)
    unfold setScores
    cases hget : mapGet s.teams tn with
    | none => exact hs
    | some team =>
      have h1 : teamScoreOk ({ team with roundScores := scores, totalScore := total }) := hop
      exact fun p hp => forall_mem_mapSet hs h1 p hp

theorem scoresConsistent_runOps (s : GameState) (ops : List Op)
    (hs : scoresConsistent s) (hops : ∀ op ∈ ops, opScoreConsistent op) :
    scoresConsistent (runOps s ops) := by
  induction ops generalizing s with
  | nil => exact hs
  | cons op ops ih =>
    exact ih (applyOp s op) (scoresConsistent_step s op hs (hops op (List.mem_cons_self _ _)))
      (fun o ho => hops o (List.mem_cons_of_mem _ ho))

/-- C6 counterexample: `SCORE_UPDATED` trusts the host-supplied total, so a
single inconsistent payload (`scores = [1]`, `totalScore = 5`) reaches a
session state where the team's `totalScore` (5) differs from the sum of
its `roundScores` (1); the invariant is not preserved by `setScores`. -/
theorem totalScore_counterexample :
    ∃ t : Team,
      mapGet (runOps (GameState.new "123456" "host1" 0)
        [ .addPlayer "A" { name := "Alice", teamName := "Red", isManager := false },
          .updateScores "Red" [some 1] 5 ]).teams "Red" = some t
      ∧ t.totalScore = 5 ∧ sumScores t.roundScores = 1 ∧ ¬ teamScoreOk t := by
  refine ⟨{ name := "Red", members := [{ playerId := "A", name := "Alice", isManager := true }],
            totalScore := 5, roundScores := [some 1], manager := some "A" },
    by decide, by decide, by decide, by decide⟩

/-- C6 amended: in every session state reachable by operations whose
`SCORE_UPDATED` payloads carry a total equal to the reduce-sum of their
scores, each team's `totalScore` equals the sum of the defined entries of
its `roundScores` (holes counted as 0); every other operation — including
`submitScore`, which recomputes the total — preserves the equality
unconditionally, and `setScores` preserves it exactly when the
host-supplied pair is itself consistent. -/
theorem totalScore_invariant (code hostId : String) (now : Nat) (ops : List Op)
    (hops : ∀ op ∈ ops, opScoreConsistent op) :
    scoresConsistent (runOps (GameState.new code hostId now) ops) :=
  scoresConsistent_runOps _ ops (fun p hp => absurd hp (List.not_mem_nil p)) hops

theorem totalScore_invariant_witness :
    (∀ op ∈ ([ .addPlayer "A" { name := "Alice", teamName := "Red", isManager := false },
               .start [("A", 3)] 1 1,
               .submit "A" "Red" 50 1 1,
               .updateScores "Red" [some 7, none, some 3] 10 ] : List Op),
       opScoreConsistent op)
    ∧ scoresConsistent (runOps (GameState.new "123456" "host1" 0)
        [ .addPlayer "A" { name := "Alice", teamName := "Red", isManager := false },
          .start [("A", 3)] 1 1,
          .submit "A" "Red" 50 1 1,
          .updateScores "Red" [some 7, none, some 3] 10 ]) :=
  ⟨by decide, totalScore_invariant "123456" "host1" 0
    [ .addPlayer "A" { name := "Alice", teamName := "Red", isManager := false },
      .start [("A", 3)] 1 1,
      .submit "A" "Red" 50 1 1,
      .updateScores "Red" [some 7, none, some 3] 10 ] (by decide)⟩

/-- Every buzz record's player is still registered and still carries the
recorded team name. -/
def buzzRecordsValid (s : GameState) : Prop :=
  ∀ b ∈ s.buzzedPlayers, ∃ q : PlayerData,
    mapGet s.players (b : BuzzRecord).playerId = some q ∧ q.teamName = b.teamName

/-- No two buzz records share a team name. -/
def buzzTeamsDistinct (s : GameState) : Prop :=
  (s.buzzedPlayers.map (fun b => b.teamName)).Nodup

instance (s : GameState) : Decidable (buzzTeamsDistinct s) := by
  unfold buzzTeamsDistinct
  infer_instance

/-- The inductive buzz-queue invariant. -/
def buzzInv (s : GameState) : Prop :=
  buzzRecordsValid s ∧ buzzTeamsDistinct s

/-- The operation does not move an already-registered player to a
different team (`addPlayer` with a changed `teamName` is the only way to
do so). -/
def opNoSwitch (s : GameState) : Op → Prop
  | .addPlayer pid pd =>
      match mapGet s.players pid with
      | none => True
      | some q => q.teamName = pd.teamName
  | _ => True

instance (s : GameState) (op : Op) : Decidable (opNoSwitch s op) := by
  cases op with
  | addPlayer pid pd =>
    dsimp only [opNoSwitch]
    cases mapGet s.players pid <;> infer_instance
  | removePlayer pid => exact isTrue trivial
  | buzz pid now => exact isTrue trivial
  | clearAll => exact isTrue trivial
  | clearPlayer pid => exact isTrue trivial
  | start gs cg cr => exact isTrue trivial
  | round cg cr => exact isTrue trivial
  | enable => exact isTrue trivial
  | submit pid tn sc g r => exact isTrue trivial
  | changeManager tn mid => exact isTrue trivial
  | updateScores tn scores total => exact isTrue trivial
  | reveal => exact isTrue trivial
  | disconnect pid => exact isTrue trivial

/-- A run in which no executed `addPlayer` switches an existing player's
team. -/
def SwitchFreeRun : GameState → List Op → Prop
  | _, [] => True
  | s, op :: ops => opNoSwitch s op ∧ SwitchFreeRun (applyOp s op) ops

instance instDecSwitchFreeRun : (s : GameState) → (ops : List Op) →
    Decidable (SwitchFreeRun s ops)
  | _, [] => isTrue trivial
  | s, op :: ops =>
    haveI := instDecSwitchFreeRun (applyOp s op) ops
    instDecidableAnd

/-- Case analysis on `handleBuzz`: the state is unchanged on failure, and
on success (player known, game started, no current teammate in the queue)
exactly one record is appended. -/
theorem handleBuzz_cases (s : GameState) (pid : String) (now : Nat) :
    (s.handleBuzz pid now).2 = s
    ∨ ∃ player : PlayerData,
        mapGet s.players pid = some player
        ∧ s.gameStarted = true
        ∧ (s.buzzedPlayers.any (fun b =>
            match mapGet s.players b.playerId with
            | some bp => bp.teamName == player.teamName
            | none => false)) = false
        ∧ (s.handleBuzz pid now).2 =
            { s with buzzedPlayers := s.buzzedPlayers ++
                [{ playerId := pid, playerName := player.name,
                   teamName := player.teamName, timestamp := now }] } := by
  unfold GameState.handleBuzz
  cases hp : mapGet s.players pid with
  | none => left; rfl
  | some player =>
    dsimp only
    cases hst : s.gameStarted with
    | false =>
      left
      simp only [Bool.not_false, if_true]
    | true =>
      cases hbz : (s.buzzedPlayers.any (fun b =>
          match mapGet s.players b.playerId with
          | some bp => bp.teamName == player.teamName
          | none => false)) with
      | true =>
        left
        simp only [hbz, Bool.not_true, Bool.false_eq_true, if_false, if_true]
      | false =>
        right
        refine ⟨player, rfl, rfl, hbz, ?_⟩
        simp only [hbz, Bool.not_true, Bool.false_eq_true, if_false]

theorem nodup_map_of_sublist {α β : Type} (f : α → β) {l l' : List α}
    (hs : List.Sublist l l') (hd : (l'.map f).Nodup) : (l.map f).Nodup :=
  List.Nodup.sublist (List.Sublist.map f hs) hd

theorem buzzInv_step (s : GameState) (op : Op) (hs : buzzInv s) (hop : opNoSwitch s op) :
    buzzInv (applyOp s op) := by
  obtain ⟨hv, hd⟩ := hs
  cases op with
  | addPlayer pid pd =>
    have hgoal : ∀ b ∈ s.buzzedPlayers, ∃ q : PlayerData,
        mapGet (mapSet s.players pid pd) (b : BuzzRecord).playerId = some q
        ∧ q.teamName = b.teamName := by
      intro b hb
      obtain ⟨q, hq, ht⟩ := hv b hb
      by_cases hb1 : b.playerId = pid
      · rw [hb1] at hq ⊢
        refine ⟨pd, mapGet_mapSet_self _ _ _, ?_⟩
        have hsw : q.teamName = pd.teamName := by
          simp only [opNoSwitch, hq] at hop
          exact hop
        rw [← hsw]
        exact ht
      · refine ⟨q, ?_, ht⟩
        rw [mapGet_mapSet_ne _ _ _ _ hb1]
        exact hq
    rcases addPlayer_cases s pid pd with ⟨team, hget, heq⟩ | ⟨hget, heq⟩ <;>
      · show buzzInv (s.addPlayer pid pd)
        rw [heq]
        exact ⟨hgoal, hd⟩
  | removePlayer pid =>
    have hval : ∀ b ∈ s.buzzedPlayers.filter (fun b => b.playerId ≠ pid),
        ∃ q : PlayerData, mapGet (mapDelete s.players pid) (b : BuzzRecord).playerId = some q
        ∧ q.teamName = b.teamName := by
      intro b hb
      have hmem := List.mem_of_mem_filter hb
      have hne : b.playerId ≠ pid := by
        have := List.of_mem_filter hb
        simpa using this
      obtain ⟨q, hq, ht⟩ := hv b hmem
      refine ⟨q, ?_, ht⟩
      rw [mapGet_mapDelete_ne _ _ _ hne]
      exact hq
    have hdis : ((s.buzzedPlayers.filter (fun b => b.playerId ≠ pid)).map
        (fun b => b.teamName)).Nodup :=
      nodup_map_of_sublist _ (List.filter_sublist _) hd
    rcases removePlayer_cases s pid with ⟨_, heq⟩ | ⟨player, team, _, _, _, heq⟩ |
      ⟨player, team, _, _, _, heq⟩ <;>
      · show buzzInv (s.removePlayer pid)
        rw [heq]
        exact ⟨hval, hdis⟩
  | buzz pid now =>
    rcases handleBuzz_cases s pid now with heq | ⟨player, hp, hst, hbz, heq⟩
    · show buzzInv (s.handleBuzz pid now).2
      rw [heq]
      exact ⟨hv, hd⟩
    · show buzzInv (s.handleBuzz pid now).2
      rw [heq]
      constructor
      · intro b hb
        rcases List.mem_append.mp hb with hb | hb
        · exact hv b hb
        · rw [List.mem_singleton.mp hb]
          exact ⟨player, hp, rfl⟩
      · have hnodup : ∀ rec : BuzzRecord, rec.teamName = player.teamName →
            ((s.buzzedPlayers ++ [rec]).map (fun b => b.teamName)).Nodup := by
          intro rec hrec
          rw [List.map_append]
          apply List.Nodup.append hd (List.nodup_singleton _)
          intro x hx hx1
          simp only [List.mem_singleton] at hx1
          rw [hx1] at hx
          rw [hrec] at hx
          simp only [List.mem_map] at hx
          obtain ⟨b, hb, hbt⟩ := hx
          obtain ⟨q, hq, ht⟩ := hv b hb
          have hany : (s.buzzedPlayers.any (fun b =>
              match mapGet s.players b.playerId with
              | some bp => bp.teamName == player.teamName
              | none => false)) = true := by
            rw [List.any_eq_true]
            refine ⟨b, hb, ?_⟩
            rw [hq]
            simp only [beq_iff_eq]
            rw [ht, hbt]
          rw [hany] at hbz
          exact Bool.noConfusion hbz
        exact hnodup _ rfl
  | clearAll =>
    exact ⟨fun b hb => absurd hb (List.not_mem_nil b), List.nodup_nil⟩
  | clearPlayer pid =>
    constructor
    · intro b hb
      exact hv b (List.mem_of_mem_eraseP hb)
    · exact nodup_map_of_sublist _ (List.eraseP_sublist _) hd
  | start gs cg cr => exact ⟨hv, hd⟩
  | round cg cr => exact ⟨hv, hd⟩
  | enable => exact ⟨hv, hd⟩
  | reveal => exact ⟨hv, hd⟩
  | disconnect pid =>
    constructor
    · intro b hb
      exact hv b (List.mem_of_mem_filter hb)
    · exact nodup_map_of_sublist _ (List.filter_sublist _) hd
  | submit pid tn sc g r =>
    rcases submitScore_state_cases s pid tn sc g r with heq | ⟨team, hget, heq⟩ <;>
      · show buzzInv (handleSubmitScore s pid tn sc g r).1
        rw [heq]
        exact ⟨hv, hd⟩
  | changeManager tn mid =>
    show buzzInv (setManager s tn mid)
    unfold setManager
    cases mapGet s.teams tn <;> exact ⟨hv, hd⟩
  | updateScores tn scores total =>
    show buzzInv (setScores s tn scores total)
    unfold setScores
    cases mapGet s.teams tn <;> exact ⟨hv, hd⟩

theorem buzzInv_run (s : GameState) (ops : List Op) (hs : buzzInv s)
    (hops : SwitchFreeRun s ops) : buzzInv (runOps s ops) := by
  induction ops generalizing s with
  | nil => exact hs
  | cons op ops ih => exact ih (applyOp s op) (buzzInv_step s op hs hops.1) hops.2

/-- C2 counterexample: the teammate check of `handleBuzz` resolves each
queued record through the *current* `players` map, so after player `A`
buzzes for team `Red` and then rejoins as team `Blue` (a team switch via
`addPlayer`), teammate `B` of `Red` buzzes successfully and the queue
holds two records with `teamName = "Red"`. -/
theorem buzzQueue_onePerTeam_counterexample :
    (runOps (GameState.new "123456" "host1" 0)
      [ .addPlayer "A" { name := "Alice", teamName := "Red", isManager := false },
        .start [] 1 1,
        .buzz "A" 100,
        .addPlayer "A" { name := "Alice", teamName := "Blue", isManager := false },
        .addPlayer "B" { name := "Bob", teamName := "Red", isManager := false },
        .buzz "B" 200 ]).buzzedPlayers.map (fun b => b.teamName) = ["Red", "Red"]
    ∧ ¬ buzzTeamsDistinct (runOps (GameState.new "123456" "host1" 0)
      [ .addPlayer "A" { name := "Alice", teamName := "Red", isManager := false },
        .start [] 1 1,
        .buzz "A" 100,
        .addPlayer "A" { name := "Alice", teamName := "Blue", isManager := false },
        .addPlayer "B" { name := "Bob", teamName := "Red", isManager := false },
        .buzz "B" 200 ]) :=
  ⟨by decide, by decide⟩

/-- C2 amended: in every session state reachable by Router operations in
which no `addPlayer` call moves an already-registered player to a
different team, the buzz queue contains at most one record per team name
(no two records share a `teamName`); the original claim fails only on
team-switching rejoins. -/
theorem buzzQueue_onePerTeam (code hostId : String) (now : Nat) (ops : List Op)
    (hops : SwitchFreeRun (GameState.new code hostId now) ops) :
    buzzTeamsDistinct (runOps (GameState.new code hostId now) ops) := by
  have hinit : buzzInv (GameState.new code hostId now) := by
    constructor
    · intro b hb
      exact absurd hb (List.not_mem_nil b)
    · unfold buzzTeamsDistinct
      exact List.Pairwise.nil
  exact (buzzInv_run _ ops hinit hops).2

theorem buzzQueue_onePerTeam_witness :
    SwitchFreeRun (GameState.new "123456" "host1" 0)
      [ .addPlayer "A" { name := "Alice", teamName := "Red", isManager := false },
        .addPlayer "B" { name := "Bob", teamName := "Blue", isManager := false },
        .start [] 1 1,
        .buzz "A" 100,
        .buzz "B" 200 ]
    ∧ buzzTeamsDistinct (runOps (GameState.new "123456" "host1" 0)
      [ .addPlayer "A" { name := "Alice", teamName := "Red", isManager := false },
        .addPlayer "B" { name := "Bob", teamName := "Blue", isManager := false },
        .start [] 1 1,
        .buzz "A" 100,
        .buzz "B" 200 ]) :=
  ⟨by decide, buzzQueue_onePerTeam "123456" "host1" 0
    [ .addPlayer "A" { name := "Alice", teamName := "Red", isManager := false },
      .addPlayer "B" { name := "Bob", teamName := "Blue", isManager := false },
      .start [] 1 1,
      .buzz "A" 100,
      .buzz "B" 200 ] (by decide)⟩

/-- The inductive manager invariant of a members list and manager field:
the team is non-empty, member ids are pairwise distinct, the `manager`
field names a member, and a member's `isManager` flag is set exactly when
the `manager` field names it. -/
def mgrOk (members : List Member) (manager : Option String) : Prop :=
  members ≠ []
  ∧ (members.map (fun m => m.playerId)).Nodup
  ∧ (∃ m ∈ members, manager = some m.playerId)
  ∧ ∀ m ∈ members, (m.isManager = true ↔ manager = some m.playerId)

instance (members : List Member) (manager : Option String) :
    Decidable (mgrOk members manager) := by
  unfold mgrOk
  infer_instance

/-- `mgrOk` for a team record. -/
def teamMgrInv (t : Team) : Prop :=
  mgrOk t.members t.manager

instance (t : Team) : Decidable (teamMgrInv t) := by
  unfold teamMgrInv
  infer_instance

/-- Every team of the session satisfies the manager invariant. -/
def managersOk (s : GameState) : Prop :=
  ∀ p ∈ s.teams, teamMgrInv (p : String × Team).2

instance (s : GameState) : Decidable (managersOk s) := by
  unfold managersOk
  infer_instance

/-- The member descriptor pushed by `addPlayer` for a new team member
(src/server.js lines 78-82). -/
def pushedMember (pid : String) (pd : PlayerData) (t : Team) : Member :=
  { playerId := pid, name := pd.name, isManager := pd.isManager || t.members.isEmpty }

/-- Resetting every member's flag to `playerId == pid` (the `forEach` of
src/server.js lines 88-90) restores `mgrOk` with manager `pid`, provided
`pid` is one of the member ids. -/
theorem mgrOk_resetFlags (L : List Member) (pid : String)
    (hne : L ≠ []) (hnd : (L.map (fun m => m.playerId)).Nodup)
    (hmem : ∃ m ∈ L, m.playerId = pid) :
    mgrOk (L.map (fun m => { m with isManager := m.playerId == pid })) (some pid) := by
  refine ⟨by simpa using hne, ?_, ?_, ?_⟩
  · rw [List.map_map]
    exact hnd
  · obtain ⟨m, hm, hpid⟩ := hmem
    refine ⟨{ m with isManager := m.playerId == pid }, List.mem_map_of_mem _ hm, ?_⟩
    rw [hpid]
  · intro m' hm'
    simp only [List.mem_map] at hm'
    obtain ⟨m, hm, rfl⟩ := hm'
    simp only [beq_iff_eq, Option.some.injEq]
    exact eq_comm

theorem addPlayerTeam_eq_existing (pid : String) (pd : PlayerData) (t : Team)
    (hmem : t.members.any (fun m => m.playerId == pid) = true) :
    addPlayerTeam pid pd t =
      (if pd.isManager || managerFalsy t.manager then
        ({ t with manager := some pid,
                  members := t.members.map
                    (fun m => { m with isManager := m.playerId == pid }) })
      else t) := by
  simp only [addPlayerTeam, hmem, if_true]

theorem addPlayerTeam_eq_push (pid : String) (pd : PlayerData) (t : Team)
    (hmem : t.members.any (fun m => m.playerId == pid) = false) :
    addPlayerTeam pid pd t =
      (if pd.isManager || managerFalsy t.manager then
        ({ t with manager := some pid,
                  members := (t.members ++ [pushedMember pid pd t]).map
                    (fun m => { m with isManager := m.playerId == pid }) })
      else
        ({ t with members := t.members ++ [pushedMember pid pd t] })) := by
  simp only [addPlayerTeam, pushedMember, hmem, Bool.false_eq_true, if_false]

/-- `addPlayerTeam` preserves the manager invariant on an existing team. -/
theorem addPlayerTeam_mgrInv (pid : String) (pd : PlayerData) (t : Team)
    (ht : teamMgrInv t) : teamMgrInv (addPlayerTeam pid pd t) := by
  obtain ⟨hne, hnd, hex, hflags⟩ := ht
  cases hmem : t.members.any (fun m => m.playerId == pid) with
  | true =>
    rw [addPlayerTeam_eq_existing pid pd t hmem]
    by_cases hcond : (pd.isManager || managerFalsy t.manager) = true
    · rw [if_pos hcond]
      show mgrOk (t.members.map (fun m => { m with isManager := m.playerId == pid })) (some pid)
      apply mgrOk_resetFlags t.members pid hne hnd
      obtain ⟨m, hm, hp⟩ := List.any_eq_true.mp hmem
      exact ⟨m, hm, by simpa using hp⟩
    · rw [if_neg hcond]
      exact ⟨hne, hnd, hex, hflags⟩
  | false =>
    have hnotin : ∀ m ∈ t.members, m.playerId ≠ pid := by
      intro m hm
      have h1 := List.any_eq_false.mp hmem m hm
      simpa using h1
    have hpidnotin : pid ∉ t.members.map (fun m => m.playerId) := by
      intro hmemp
      simp only [List.mem_map] at hmemp
      obtain ⟨m, hm, hp⟩ := hmemp
      exact hnotin m hm hp
    have hndapp : ((t.members ++ [pushedMember pid pd t]).map
        (fun m => m.playerId)).Nodup := by
      rw [List.map_append]
      apply List.Nodup.append hnd (List.nodup_singleton _)
      intro x hx hx1
      simp only [List.mem_singleton] at hx1
      rw [hx1] at hx
      exact hpidnotin hx
    rw [addPlayerTeam_eq_push pid pd t hmem]
    by_cases hcond : (pd.isManager || managerFalsy t.manager) = true
    · rw [if_pos hcond]
      apply mgrOk_resetFlags _ pid (by simp) hndapp
      exact ⟨pushedMember pid pd t,
        List.mem_append_right _ (List.mem_singleton_self _), rfl⟩
    · rw [if_neg hcond]
      have hcondf : (pd.isManager || managerFalsy t.manager) = false := by
        revert hcond
        cases pd.isManager || managerFalsy t.manager with
        | true => intro hc; exact absurd rfl hc
        | false => intro _; rfl
      have hor := Bool.or_eq_false_iff.mp hcondf
      have hempty : t.members.isEmpty = false := by
        cases hL : t.members with
        | nil => exact absurd hL hne
        | cons a L => rfl
      show mgrOk (t.members ++ [pushedMember pid pd t]) t.manager
      refine ⟨by simp, hndapp, ?_, ?_⟩
      · obtain ⟨m0, hm0, hmgr⟩ := hex
        exact ⟨m0, List.mem_append_left _ hm0, hmgr⟩
      · intro m hm
        rcases List.mem_append.mp hm with hm | hm
        · exact hflags m hm
        · rw [List.mem_singleton.mp hm]
          constructor
          · intro hfl
            have hfl2 : (pd.isManager || t.members.isEmpty) = true := hfl
            rw [hor.1, hempty] at hfl2
            exact Bool.noConfusion hfl2
          · intro hmgr
            obtain ⟨m0, hm0, hmgr0⟩ := hex
            rw [hmgr0] at hmgr
            injection hmgr with hmgr
            exact absurd hmgr (hnotin m0 hm0)

/-- Joining an unknown team name creates a fresh team whose single member
is the joiner, flagged as manager. -/
theorem addPlayerTeam_fresh_mgrInv (pid : String) (pd : PlayerData) (name : String) :
    teamMgrInv (addPlayerTeam pid pd (freshTeam name)) := by
  simp [addPlayerTeam, freshTeam, teamMgrInv, mgrOk, managerFalsy]

theorem removePlayerTeam_eq (pid : String) (t : Team) :
    removePlayerTeam pid t =
      (if t.manager = some pid
          ∧ t.members.filter (fun (m : Member) => m.playerId ≠ pid) ≠ [] then
        match t.members.filter (fun (m : Member) => m.playerId ≠ pid) with
        | [] => { t with members := t.members.filter (fun (m : Member) => m.playerId ≠ pid) }
        | m :: rest =>
          { t with members := { m with isManager := true } :: rest,
                   manager := some m.playerId }
      else
        ({ t with members := t.members.filter (fun (m : Member) => m.playerId ≠ pid) })) :=
  rfl

/-- `removePlayerTeam` preserves the manager invariant whenever members
remain after the leaver is filtered out. -/
theorem removePlayerTeam_mgrInv (pid : String) (t : Team) (ht : teamMgrInv t)
    (hne1 : (t.members.filter (fun (m : Member) => m.playerId ≠ pid)).isEmpty = false) :
    teamMgrInv (removePlayerTeam pid t) := by
  obtain ⟨hne, hnd, hex, hflags⟩ := ht
  have hmembers1ne : t.members.filter (fun (m : Member) => m.playerId ≠ pid) ≠ [] := by
    intro hh
    rw [hh] at hne1
    exact Bool.noConfusion hne1
  have hnd1 : ((t.members.filter (fun (m : Member) => m.playerId ≠ pid)).map
      (fun m => m.playerId)).Nodup :=
    nodup_map_of_sublist _ (List.filter_sublist _) hnd
  rw [removePlayerTeam_eq]
  by_cases hcond : t.manager = some pid
      ∧ t.members.filter (fun (m : Member) => m.playerId ≠ pid) ≠ []
  · rw [if_pos hcond]
    cases hL : t.members.filter (fun (m : Member) => m.playerId ≠ pid) with
    | nil => exact absurd hL hmembers1ne
    | cons m rest =>
      show mgrOk ({ m with isManager := true } :: rest) (some m.playerId)
      have hnd2 : ((m :: rest).map (fun mm => mm.playerId)).Nodup := by
        rw [← hL]
        exact hnd1
      have hheadnotin : m.playerId ∉ rest.map (fun mm => mm.playerId) := by
        rw [List.map_cons, List.nodup_cons] at hnd2
        exact hnd2.1
      refine ⟨by simp, ?_, ?_, ?_⟩
      · exact hnd2
      · exact ⟨{ m with isManager := true }, List.mem_cons_self _ _, rfl⟩
      · intro x hx
        rcases List.mem_cons.mp hx with hx | hx
        · rw [hx]
          simp
        · have hxfil : x ∈ t.members.filter (fun (mm : Member) => mm.playerId ≠ pid) := by
            rw [hL]
            exact List.mem_cons_of_mem _ hx
          have hxmem := List.mem_of_mem_filter hxfil
          have hxne : x.playerId ≠ pid := by
            simpa using List.of_mem_filter hxfil
          constructor
          · intro hfl
            have hx2 := (hflags x hxmem).mp hfl
            rw [hcond.1] at hx2
            injection hx2 with hx2
            exact absurd hx2.symm hxne
          · intro hmm
            injection hmm with hmm
            have : x.playerId ∈ rest.map (fun mm => mm.playerId) :=
              List.mem_map_of_mem _ hx
            rw [← hmm] at this
            exact absurd this hheadnotin
  · rw [if_neg hcond]
    have hmgrne : t.manager ≠ some pid := by
      intro hh
      exact hcond ⟨hh, hmembers1ne⟩
    show mgrOk (t.members.filter (fun (m : Member) => m.playerId ≠ pid)) t.manager
    refine ⟨hmembers1ne, hnd1, ?_, ?_⟩
    · obtain ⟨m0, hm0, hmgr0⟩ := hex
      have hm0ne : m0.playerId ≠ pid := by
        intro hh
        rw [hh] at hmgr0
        exact hmgrne hmgr0
      refine ⟨m0, ?_, hmgr0⟩
      rw [List.mem_filter]
      exact ⟨hm0, by simpa using hm0ne⟩
    · intro m hm
      exact hflags m (List.mem_of_mem_filter hm)

theorem managersOk_addPlayer (s : GameState) (pid : String) (pd : PlayerData)
    (hs : managersOk s) : managersOk (s.addPlayer pid pd) := by
  rcases addPlayer_cases s pid pd with ⟨team, hget, heq⟩ | ⟨hget, heq⟩
  · rw [heq]
    exact fun p hp => forall_mem_mapSet hs
      (addPlayerTeam_mgrInv pid pd team (hs (pd.teamName, team) (mapGet_mem hget))) p hp
  · rw [heq]
    exact fun p hp => forall_mem_mapSet hs (addPlayerTeam_fresh_mgrInv pid pd pd.teamName) p hp

theorem managersOk_removePlayer (s : GameState) (pid : String)
    (hs : managersOk s) : managersOk (s.removePlayer pid) := by
  rcases removePlayer_cases s pid with ⟨_, heq⟩ | ⟨player, team, _, hget, _, heq⟩ |
    ⟨player, team, _, hget, hemp, heq⟩
  · rw [heq]
    exact fun p hp => hs p hp
  · rw [heq]
    exact fun p hp => forall_mem_mapDelete hs p hp
  · rw [heq]
    exact fun p hp => forall_mem_mapSet hs
      (removePlayerTeam_mgrInv pid team (hs (player.teamName, team) (mapGet_mem hget)) hemp) p hp

/-- A roster operation: `addPlayer` or `removePlayer`. -/
def isRosterOp : Op → Prop
  | .addPlayer _ _ => True
  | .removePlayer _ => True
  | _ => False

instance (op : Op) : Decidable (isRosterOp op) := by
  cases op with
  | addPlayer pid pd => exact isTrue trivial
  | removePlayer pid => exact isTrue trivial
  | buzz pid now => exact isFalse (fun h => h)
  | clearAll => exact isFalse (fun h => h)
  | clearPlayer pid => exact isFalse (fun h => h)
  | start gs cg cr => exact isFalse (fun h => h)
  | round cg cr => exact isFalse (fun h => h)
  | enable => exact isFalse (fun h => h)
  | submit pid tn sc g r => exact isFalse (fun h => h)
  | changeManager tn mid => exact isFalse (fun h => h)
  | updateScores tn scores total => exact isFalse (fun h => h)
  | reveal => exact isFalse (fun h => h)
  | disconnect pid => exact isFalse (fun h => h)

/-- The claim-level statement: exactly one member flagged manager, and the
flagged member is named by the `manager` field. -/
theorem teamMgrInv_claim (t : Team) (ht : teamMgrInv t) :
    t.members.countP (fun m => m.isManager) = 1
    ∧ ∀ m ∈ t.members, m.isManager = true → t.manager = some m.playerId := by
  obtain ⟨hne, hnd, hex, hflags⟩ := ht
  obtain ⟨m0, hm0, hmgr0⟩ := hex
  constructor
  · have hpt : ∀ m ∈ t.members,
        ((fun m : Member => m.isManager) m = true
          ↔ (fun m : Member => m.playerId == m0.playerId) m = true) := by
      intro m hm
      simp only [beq_iff_eq]
      rw [hflags m hm, hmgr0]
      constructor
      · intro h
        injection h with h
        exact h.symm
      · intro h
        rw [h]
    calc t.members.countP (fun m => m.isManager)
        = t.members.countP (fun m => m.playerId == m0.playerId) := List.countP_congr hpt
      _ = (t.members.map (fun m => m.playerId)).countP (fun x => x == m0.playerId) := by
          rw [List.countP_map]
          rfl
      _ = (t.members.map (fun m => m.playerId)).count m0.playerId := rfl
      _ = 1 := List.count_eq_one_of_mem hnd (List.mem_map_of_mem _ hm0)
  · intro m hm hfl
    exact (hflags m hm).mp hfl

/-- C1: for every sequence of `addPlayer`/`removePlayer` operations on a
fresh session, every team in the resulting state (teams are non-empty by
construction) has exactly one member with `isManager = true`, and every
flagged member is the one named by the team's `manager` field. -/
theorem oneManagerPerTeam (code hostId : String) (now : Nat) (ops : List Op)
    (hops : ∀ op ∈ ops, isRosterOp op) :
    ∀ p ∈ (runOps (GameState.new code hostId now) ops).teams,
      (p : String × Team).2.members.countP (fun m => m.isManager) = 1
      ∧ ∀ m ∈ p.2.members, m.isManager = true → p.2.manager = some m.playerId := by
  have hgen : ∀ (l : List Op) (s : GameState), managersOk s → (∀ op ∈ l, isRosterOp op) →
      managersOk (runOps s l) := by
    intro l
    induction l with
    | nil => intro s hs _; exact hs
    | cons op ops ih =>
      intro s hs hl
      have hop := hl op (List.mem_cons_self _ _)
      have hstep : managersOk (applyOp s op) := by
        cases op with
        | addPlayer pid pd => exact managersOk_addPlayer s pid pd hs
        | removePlayer pid => exact managersOk_removePlayer s pid hs
        | buzz pid now => exact hop.elim
        | clearAll => exact hop.elim
        | clearPlayer pid => exact hop.elim
        | start gs cg cr => exact hop.elim
        | round cg cr => exact hop.elim
        | enable => exact hop.elim
        | submit pid tn sc g r => exact hop.elim
        | changeManager tn mid => exact hop.elim
        | updateScores tn scores total => exact hop.elim
        | reveal => exact hop.elim
        | disconnect pid => exact hop.elim
      exact ih (applyOp s op) hstep (fun o ho => hl o (List.mem_cons_of_mem _ ho))
  have hrun : managersOk (runOps (GameState.new code hostId now) ops) :=
    hgen ops _ (fun p hp => absurd hp (List.not_mem_nil p)) hops
  exact fun p hp => teamMgrInv_claim p.2 (hrun p hp)

theorem oneManagerPerTeam_witness :
    (∀ op ∈ ([ .addPlayer "A" { name := "Alice", teamName := "Red", isManager := false },
               .addPlayer "B" { name := "Bob", teamName := "Red", isManager := false },
               .addPlayer "C" { name := "Cara", teamName := "Blue", isManager := true },
               .addPlayer "C" { name := "Cara", teamName := "Red", isManager := true },
               .removePlayer "A" ] : List Op), isRosterOp op)
    ∧ ∀ p ∈ (runOps (GameState.new "123456" "host1" 0)
        [ .addPlayer "A" { name := "Alice", teamName := "Red", isManager := false },
          .addPlayer "B" { name := "Bob", teamName := "Red", isManager := false },
          .addPlayer "C" { name := "Cara", teamName := "Blue", isManager := true },
          .addPlayer "C" { name := "Cara", teamName := "Red", isManager := true },
          .removePlayer "A" ]).teams,
        (p : String × Team).2.members.countP (fun m => m.isManager) = 1
        ∧ ∀ m ∈ p.2.members, m.isManager = true → p.2.manager = some m.playerId :=
  ⟨by decide, oneManagerPerTeam "123456" "host1" 0
    [ .addPlayer "A" { name := "Alice", teamName := "Red", isManager := false },
      .addPlayer "B" { name := "Bob", teamName := "Red", isManager := false },
      .addPlayer "C" { name := "Cara", teamName := "Blue", isManager := true },
      .addPlayer "C" { name := "Cara", teamName := "Red", isManager := true },
      .removePlayer "A" ] (by decide)⟩
